import Mathlib

/-!
A shallow embedding of the `ScrollView` container of the cview widget library,
together with proofs about its scrolling, drawing, focus and mouse-routing
behaviour.

Primitives are identified by natural numbers; a `none` entry models a nil
primitive (a nil Go interface value).  The screen collaborator is modelled by
recording the effects `Draw` would perform: the rectangle assigned to each
item via `SetRect`, the cells written by the fill loop, and the scrollbar
decision and cursor.  A computation that would dereference a nil primitive
(a method call on a nil Go interface panics) is modelled as `Except.error`.
-/

set_option autoImplicit false
set_option synthInstance.maxSize 1024

namespace CviewScroll

/-- Visibility modes of the scroll bar (`ScrollBarNever`, `ScrollBarAuto`,
`ScrollBarAlways` in the library). -/
inductive ScrollBarVisibility where
  | never
  | auto
  | always
  deriving DecidableEq, Repr

/-- One entry of `ScrollView.items` (`scrollItem` in the source).  The contained
primitive is identified by a natural number; `none` models a nil primitive. -/
structure ScrollItem where
  item : Option Nat
  fixedSize : Int
  focus : Bool
  deriving DecidableEq, Repr

/-- The mutable `ScrollView` state relevant to the verified operations:
the item list, the scroll bar visibility mode, and `heightOffset`. -/
structure ScrollView where
  items : List ScrollItem
  scrollBarVisibility : ScrollBarVisibility
  heightOffset : Int
  deriving DecidableEq, Repr

/-- `contentHeight := 0; for _, item := range f.items { contentHeight += item.FixedSize }` -/
def contentHeightOf (items : List ScrollItem) : Int :=
  items.foldl (fun acc it => acc + it.fixedSize) 0

/-- The re-clamp of `f.heightOffset` at the start of `Draw`:
`if contentHeight > visibleheight && y+f.heightOffset+visibleheight > y+contentHeight
 { f.heightOffset = contentHeight - visibleheight }`. -/
def clampedOffset (contentHeight y visibleheight heightOffset : Int) : Int :=
  if contentHeight > visibleheight ∧ y + heightOffset + visibleheight > y + contentHeight then
    contentHeight - visibleheight
  else heightOffset

/-- `showVerticalScrollBar := f.scrollBarVisibility == ScrollBarAlways ||
(f.scrollBarVisibility == ScrollBarAuto && contentHeight > visibleheight)`. -/
def showVerticalScrollBar (vis : ScrollBarVisibility) (contentHeight visibleheight : Int) :
    Bool :=
  decide (vis = ScrollBarVisibility.always) ||
    (decide (vis = ScrollBarVisibility.auto) && decide (contentHeight > visibleheight))

/-- Truncation of an exact rational toward zero; models Go's `int(float64(...))`
conversion (which truncates toward zero).  A `Rat` is stored normalized with a
positive denominator, so `Int.tdiv q.num q.den` (division rounding toward
zero) is exactly truncation toward zero. -/
def truncFloat (q : ℚ) : Int :=
  Int.tdiv q.num (q.den : Int)

/-- The scrollbar cursor:
`cursor := int(float64(contentHeight) * (float64(firstVisibleY-y) / float64(contentHeight-visibleheight)))`
followed by `if cursor > contentHeight { cursor = contentHeight }`.
The floating-point product is modelled by the exact rational
`contentHeight * (firstVisibleY - y) / (contentHeight - visibleheight)`
(in an exact field `c * (a / b) = (c * a) / b`), truncated toward zero.
When the divisor is zero the rational convention yields `0` whereas Go's
`float64` yields an infinity or NaN; no theorem below relies on the value of
this function at a zero divisor. -/
def scrollCursor (contentHeight visibleheight firstVisibleY y : Int) : Int :=
  let c := truncFloat
    (Rat.divInt (contentHeight * (firstVisibleY - y)) (contentHeight - visibleheight))
  if c > contentHeight then contentHeight else c

/-- Result of the item walk inside `Draw`: the rectangle passed to `SetRect`
for each item in order (`none` when the item was skipped by the scroll test),
the final running position `pos`, and `firstVisibleY`. -/
structure WalkOut where
  rects : List (Option (Int × Int × Int × Int))
  pos : Int
  firstVisibleY : Int
  deriving DecidableEq, Repr

/-- The item loop of `Draw`.  Per item:
`if posScrolled < y+f.heightOffset && showVerticalScrollBar { posScrolled += size; continue }`,
then `if firstVisibleY == -1 { firstVisibleY = posScrolled }`, `posScrolled += size`,
`item.Item.SetRect(x, pos, width, size)` (which panics when `item.Item` is nil:
modelled as `Except.error`), `pos += size`, and the child draw. -/
def walkItems (x y width heightOffset : Int) (showBar : Bool) :
    List ScrollItem → Int → Int → Int → Except Unit WalkOut
  | [], pos, _, fv => .ok ⟨[], pos, fv⟩
  | it :: rest, pos, posScrolled, fv =>
    if posScrolled < y + heightOffset ∧ showBar = true then
      match walkItems x y width heightOffset showBar rest pos (posScrolled + it.fixedSize) fv with
      | .error e => .error e
      | .ok w => .ok ⟨none :: w.rects, w.pos, w.firstVisibleY⟩
    else
      let fv2 := if fv = -1 then posScrolled else fv
      match it.item with
      | none => .error ()
      | some _ =>
        match walkItems x y width heightOffset showBar rest (pos + it.fixedSize)
            (posScrolled + it.fixedSize) fv2 with
        | .error e => .error e
        | .ok w => .ok ⟨some (x, pos, width, it.fixedSize) :: w.rects, w.pos, w.firstVisibleY⟩

/-- The fill of the leftover space below the last item, recorded as the list of
`(column, row)` cells passed to `screen.SetContent`:
`if pos < y+visibleheight { for i := pos; i < y+visibleheight; i++ {
for xx := 0; x+xx < width; xx++ { screen.SetContent(x, i, ' ', ...) } } }`.
Note the source writes the cell `(x, i)` on every inner iteration (`xx` is not
used in the write), so each row receives `(width - x)` writes of the same cell. -/
def fillCells (x width pos yPlusH : Int) : List (Int × Int) :=
  if pos < yPlusH then
    (List.range (yPlusH - pos).toNat).flatMap
      (fun k => List.replicate (width - x).toNat (x, pos + (k : Int)))
  else []

/-- The observable outcome of one `ScrollView.Draw` call. -/
structure DrawOut where
  heightOffset : Int
  showBar : Bool
  innerWidth : Int
  rects : List (Option (Int × Int × Int × Int))
  firstVisibleY : Int
  fills : List (Int × Int)
  divisor : Int
  cursor : Int
  deriving DecidableEq, Repr

/-- `ScrollView.Draw`, with the inner rectangle `(x, y, width, visibleheight)`
supplied by the `Box` collaborator (`f.GetInnerRect()`).  Returns the clamped
(and written back) `heightOffset`, the scrollbar decision, the width after
subtracting the scrollbar column, the per-item rectangles, `firstVisibleY`,
the fill writes, and — when the scrollbar is shown — the cursor divisor
`contentHeight - visibleheight` together with the computed cursor. -/
def ScrollView.Draw (f : ScrollView) (x y width visibleheight : Int) :
    Except Unit DrawOut :=
  let contentHeight := contentHeightOf f.items
  let heightOffset := clampedOffset contentHeight y visibleheight f.heightOffset
  let showBar := showVerticalScrollBar f.scrollBarVisibility contentHeight visibleheight
  let width1 := if 0 < width ∧ showBar = true then width - 1 else width
  (walkItems x y width1 heightOffset showBar f.items y y (-1)).map (fun w =>
    ⟨heightOffset, showBar, width1, w.rects, w.firstVisibleY,
      fillCells x width1 w.pos (y + visibleheight),
      if showBar = true then contentHeight - visibleheight else 0,
      if showBar = true then scrollCursor contentHeight visibleheight w.firstVisibleY y
      else 0⟩)

/-- `ScrollTo(height, width)`: stores `height` into `f.heightOffset`; the width
argument is ignored by the source. -/
def ScrollView.ScrollTo (f : ScrollView) (height _width : Int) : ScrollView :=
  ⟨f.items, f.scrollBarVisibility, height⟩

/-- `AddItem`: a nil primitive is replaced by a fresh invisible `Box`
(identified here by `freshBox`), then the entry is appended. -/
def ScrollView.AddItem (f : ScrollView) (freshBox : Nat) (item : Option Nat)
    (fixedSize : Int) (focus : Bool) : ScrollView :=
  let stored : Option Nat :=
    match item with
    | none => some freshBox
    | some p => some p
  ⟨f.items ++ [⟨stored, fixedSize, focus⟩], f.scrollBarVisibility, f.heightOffset⟩

/-- `AddItemAtIndex`: the primitive argument is stored exactly as passed
(no nil normalization), inserted at `index`. -/
def ScrollView.AddItemAtIndex (f : ScrollView) (index : Nat) (item : Option Nat)
    (fixedSize : Int) (focus : Bool) : ScrollView :=
  let newItem : ScrollItem := ⟨item, fixedSize, focus⟩
  let items2 :=
    if index = 0 then newItem :: f.items
    else f.items.take index ++ newItem :: f.items.drop index
  ⟨items2, f.scrollBarVisibility, f.heightOffset⟩

/-- `GetItems`: the contained primitives in order. -/
def ScrollView.GetItems (f : ScrollView) : List (Option Nat) :=
  f.items.map (·.item)

/-- Removal of one index: `f.items = append(f.items[:index], f.items[index+1:]...)`. -/
def removeAt (l : List ScrollItem) (i : Nat) : List ScrollItem :=
  l.take i ++ l.drop (i + 1)

/-- The `RemoveItem` loop `for index := len(f.items) - 1; index >= 0; index--`:
`removeItemLoop p items (n+1)` processes index `n` and then the indices below it. -/
def removeItemLoop (p : Option Nat) : List ScrollItem → Nat → List ScrollItem
  | items, 0 => items
  | items, n + 1 =>
    let items2 := if items[n]?.map (·.item) = some p then removeAt items n else items
    removeItemLoop p items2 n

/-- `RemoveItem(p)`: removes every entry whose primitive equals `p`, scanning
back to front. -/
def ScrollView.RemoveItem (f : ScrollView) (p : Option Nat) : ScrollView :=
  ⟨removeItemLoop p f.items f.items.length, f.scrollBarVisibility, f.heightOffset⟩

/-- The `Focus` scan: returns the primitive passed to `delegate`, or `none`
when `delegate` is never invoked.  Per item:
`if item.Item != nil && item.Focus { delegate(item.Item); return }`. -/
def focusLoop : List ScrollItem → Option Nat
  | [] => none
  | it :: rest => if it.item.isSome ∧ it.focus = true then it.item else focusLoop rest

/-- `Focus(delegate)` on a `ScrollView`. -/
def ScrollView.Focus (f : ScrollView) : Option Nat :=
  focusLoop f.items

/-- Mouse actions relevant to the handler: the two wheel actions and a
representative of every other action. -/
inductive MouseAction where
  | scrollUp
  | scrollDown
  | other
  deriving DecidableEq, Repr

/-- The observable outcome of one `MouseHandler` invocation: the returned
`(consumed, capture)` pair, the updated `heightOffset`, and the children whose
handlers were invoked, in invocation order. -/
structure MouseOut where
  consumed : Bool
  capture : Option Nat
  heightOffset : Int
  invoked : List Nat
  deriving DecidableEq, Repr

/-- The child-forwarding loop of `MouseHandler`: skips nil items, invokes each
child handler in order, and returns at the first child reporting consumed.
The behaviour of each child's handler is abstracted by `child`. -/
def childMouseLoop (child : Nat → Bool × Option Nat) :
    Bool → Option Nat → List ScrollItem → Bool × Option Nat × List Nat
  | c0, cap0, [] => (c0, cap0, [])
  | c0, cap0, it :: rest =>
    match it.item with
    | none => childMouseLoop child c0 cap0 rest
    | some p =>
      let r := child p
      if r.1 = true then (r.1, r.2, [p])
      else
        let rec2 := childMouseLoop child r.1 r.2 rest
        (rec2.1, rec2.2.1, p :: rec2.2.2)

/-- `MouseHandler`: `inRect` models `f.InRect(event.Position())`.  Wheel-up
decrements `heightOffset` and clamps it at 0, wheel-down increments it; both
are consumed without forwarding.  Other actions are forwarded to the children
in order until one consumes.  (The `Box.WrapMouseHandler` wrapper, whose source
is outside this file's scope, is the identity when no mouse capture is active.) -/
def ScrollView.MouseHandler (f : ScrollView) (inRect : Bool) (action : MouseAction)
    (child : Nat → Bool × Option Nat) : MouseOut :=
  if inRect = false then ⟨false, none, f.heightOffset, []⟩
  else
    match action with
    | .scrollUp =>
      let o := f.heightOffset - 1
      let o2 := if o < 0 then 0 else o
      ⟨true, none, o2, []⟩
    | .scrollDown => ⟨true, none, f.heightOffset + 1, []⟩
    | .other =>
      let L := childMouseLoop child false none f.items
      ⟨L.1, L.2.1, f.heightOffset, L.2.2⟩

instance {ε α : Type} [DecidableEq ε] [DecidableEq α] : DecidableEq (Except ε α) := fun x y =>
  match x, y with
  | .error a, .error b => decidable_of_iff (a = b) (by simp)
  | .error _, .ok _ => isFalse (by simp)
  | .ok _, .error _ => isFalse (by simp)
  | .ok a, .ok b => decidable_of_iff (a = b) (by simp)

/-- Sum of the fixed sizes of the first `i` items: the running `posScrolled`
of the draw loop, relative to its starting value. -/
def sizesBefore (items : List ScrollItem) (i : Nat) : Int :=
  contentHeightOf (items.take i)

theorem contentHeightOf_nil : contentHeightOf [] = 0 := rfl

theorem foldl_size_init (l : List ScrollItem) :
    ∀ a : Int, l.foldl (fun acc it => acc + it.fixedSize) a = a + contentHeightOf l := by
  induction l with
  | nil => intro a; simp [contentHeightOf]
  | cons it rest ih =>
    intro a
    simp only [List.foldl_cons, contentHeightOf]
    rw [ih (a + it.fixedSize), ih (0 + it.fixedSize)]
    ring

theorem contentHeightOf_cons (it : ScrollItem) (rest : List ScrollItem) :
    contentHeightOf (it :: rest) = it.fixedSize + contentHeightOf rest := by
  show List.foldl (fun acc it => acc + it.fixedSize) (0 + it.fixedSize) rest = _
  rw [foldl_size_init]
  ring

theorem sizesBefore_zero (items : List ScrollItem) : sizesBefore items 0 = 0 := rfl

theorem sizesBefore_cons_succ (it : ScrollItem) (rest : List ScrollItem) (i : Nat) :
    sizesBefore (it :: rest) (i + 1) = it.fixedSize + sizesBefore rest i := by
  simp only [sizesBefore, List.take_succ_cons]
  exact contentHeightOf_cons _ _

section WalkLemmas

variable {x y w o : Int} {sb : Bool}

theorem walkItems_nil (pos ps fv : Int) :
    walkItems x y w o sb [] pos ps fv = .ok ⟨[], pos, fv⟩ := rfl

theorem walkItems_cons_skip {it : ScrollItem} {rest : List ScrollItem} {pos ps fv : Int}
    (h : ps < y + o ∧ sb = true) :
    walkItems x y w o sb (it :: rest) pos ps fv =
      match walkItems x y w o sb rest pos (ps + it.fixedSize) fv with
      | .error e => .error e
      | .ok w2 => .ok ⟨none :: w2.rects, w2.pos, w2.firstVisibleY⟩ := by
  rw [walkItems, if_pos h]

theorem walkItems_cons_none {it : ScrollItem} {rest : List ScrollItem} {pos ps fv : Int}
    (h : ¬(ps < y + o ∧ sb = true)) (hit : it.item = none) :
    walkItems x y w o sb (it :: rest) pos ps fv = .error () := by
  rw [walkItems, if_neg h]
  simp only [hit]

theorem walkItems_cons_draw {it : ScrollItem} {rest : List ScrollItem} {pos ps fv : Int}
    (h : ¬(ps < y + o ∧ sb = true)) {p : Nat} (hit : it.item = some p) :
    walkItems x y w o sb (it :: rest) pos ps fv =
      match walkItems x y w o sb rest (pos + it.fixedSize) (ps + it.fixedSize)
          (if fv = -1 then ps else fv) with
      | .error e => .error e
      | .ok w2 => .ok ⟨some (x, pos, w, it.fixedSize) :: w2.rects, w2.pos, w2.firstVisibleY⟩ := by
  rw [walkItems, if_neg h]
  simp only [hit]

/-- Every item whose accumulated start position lies above the scroll offset is
skipped (gets no rectangle) when the scroll bar is shown. -/
theorem walk_skip :
    ∀ (items : List ScrollItem) (pos ps fv : Int) (out : WalkOut),
      walkItems x y w o true items pos ps fv = .ok out →
      ∀ i, i < items.length → ps + sizesBefore items i < y + o →
      out.rects[i]? = some none := by
  intro items
  induction items with
  | nil => intro pos ps fv out _ i hi; simp at hi
  | cons it rest ih =>
    intro pos ps fv out h i hi hlt
    by_cases hskip : ps < y + o ∧ (true : Bool) = true
    · rw [walkItems_cons_skip hskip] at h
      cases hw : walkItems x y w o true rest pos (ps + it.fixedSize) fv with
      | error e => rw [hw] at h; exact absurd h (by simp)
      | ok w2 =>
        rw [hw] at h
        simp only [Except.ok.injEq] at h
        subst h
        match i with
        | 0 => simp
        | i + 1 =>
          simp only [WalkOut.mk.injEq, List.getElem?_cons_succ]
          refine ih pos (ps + it.fixedSize) fv w2 hw i (by simpa using hi) ?_
          rw [sizesBefore_cons_succ] at hlt
          omega
    · match i with
      | 0 =>
        rw [sizesBefore_zero] at hlt
        exact absurd ⟨by omega, rfl⟩ hskip
      | i + 1 =>
        cases hit : it.item with
        | none => rw [walkItems_cons_none hskip hit] at h; exact absurd h (by simp)
        | some p =>
          rw [walkItems_cons_draw hskip hit] at h
          cases hw : walkItems x y w o true rest (pos + it.fixedSize) (ps + it.fixedSize)
              (if fv = -1 then ps else fv) with
          | error e => rw [hw] at h; exact absurd h (by simp)
          | ok w2 =>
            rw [hw] at h
            simp only [Except.ok.injEq] at h
            subst h
            simp only [List.getElem?_cons_succ]
            refine ih (pos + it.fixedSize) (ps + it.fixedSize) _ w2 hw i (by simpa using hi) ?_
            rw [sizesBefore_cons_succ] at hlt
            omega

/-- The first item whose accumulated start position reaches the scroll offset is
assigned the rectangle starting at the walk's running position `pos` (the top of
the viewport for the first drawn item). -/
theorem walk_first :
    ∀ (items : List ScrollItem) (pos ps fv : Int) (out : WalkOut),
      walkItems x y w o true items pos ps fv = .ok out →
      ∀ i (hi : i < items.length),
        ¬(ps + sizesBefore items i < y + o) →
        (∀ j, j < i → ps + sizesBefore items j < y + o) →
        out.rects[i]? = some (some (x, pos, w, (items.get ⟨i, hi⟩).fixedSize)) := by
  intro items
  induction items with
  | nil => intro pos ps fv out _ i hi; simp at hi
  | cons it rest ih =>
    intro pos ps fv out h i hi hge hj
    by_cases hskip : ps < y + o ∧ (true : Bool) = true
    · rw [walkItems_cons_skip hskip] at h
      cases hw : walkItems x y w o true rest pos (ps + it.fixedSize) fv with
      | error e => rw [hw] at h; exact absurd h (by simp)
      | ok w2 =>
        rw [hw] at h
        simp only [Except.ok.injEq] at h
        subst h
        match i with
        | 0 =>
          rw [sizesBefore_zero] at hge
          exact absurd hskip.1 (by omega)
        | i + 1 =>
          simp only [List.getElem?_cons_succ]
          refine ih pos (ps + it.fixedSize) fv w2 hw i (by simpa using hi) ?_ ?_
          · rw [sizesBefore_cons_succ] at hge; omega
          · intro j hji
            have := hj (j + 1) (by omega)
            rw [sizesBefore_cons_succ] at this
            omega
    · match i with
      | 0 =>
        cases hit : it.item with
        | none => rw [walkItems_cons_none hskip hit] at h; exact absurd h (by simp)
        | some p =>
          rw [walkItems_cons_draw hskip hit] at h
          cases hw : walkItems x y w o true rest (pos + it.fixedSize) (ps + it.fixedSize)
              (if fv = -1 then ps else fv) with
          | error e => rw [hw] at h; exact absurd h (by simp)
          | ok w2 =>
            rw [hw] at h
            simp only [Except.ok.injEq] at h
            subst h
            simp
      | i + 1 =>
        have h0 := hj 0 (by omega)
        rw [sizesBefore_zero] at h0
        exact absurd ⟨by omega, rfl⟩ hskip

/-- When the scroll bar is not shown, no item is skipped: every item receives a
rectangle. -/
theorem walk_noskip :
    ∀ (items : List ScrollItem) (pos ps fv : Int) (out : WalkOut),
      walkItems x y w o false items pos ps fv = .ok out →
      ∀ i, i < items.length → out.rects[i]? ≠ some none := by
  intro items
  induction items with
  | nil => intro pos ps fv out _ i hi; simp at hi
  | cons it rest ih =>
    intro pos ps fv out h i hi
    have hskip : ¬(ps < y + o ∧ (false : Bool) = true) := by simp
    cases hit : it.item with
    | none => rw [walkItems_cons_none hskip hit] at h; exact absurd h (by simp)
    | some p =>
      rw [walkItems_cons_draw hskip hit] at h
      cases hw : walkItems x y w o false rest (pos + it.fixedSize) (ps + it.fixedSize)
          (if fv = -1 then ps else fv) with
      | error e => rw [hw] at h; exact absurd h (by simp)
      | ok w2 =>
        rw [hw] at h
        simp only [Except.ok.injEq] at h
        subst h
        match i with
        | 0 => simp
        | i + 1 =>
          simp only [List.getElem?_cons_succ]
          exact ih (pos + it.fixedSize) (ps + it.fixedSize) _ w2 hw i (by simpa using hi)

/-- When the scroll bar is not shown nothing is skipped, so a nil item is always
reached and `SetRect` is called on it: the walk panics. -/
theorem walk_error_of_none :
    ∀ (items : List ScrollItem) (pos ps fv : Int),
      (∃ it ∈ items, it.item = none) →
      walkItems x y w o false items pos ps fv = .error () := by
  intro items
  induction items with
  | nil => intro pos ps fv h; simp at h
  | cons it rest ih =>
    intro pos ps fv h
    have hskip : ¬(ps < y + o ∧ (false : Bool) = true) := by simp
    cases hit : it.item with
    | none => exact walkItems_cons_none hskip hit
    | some p =>
      rw [walkItems_cons_draw hskip hit]
      have hrest : ∃ it2 ∈ rest, it2.item = none := by
        rcases h with ⟨it2, hmem, hnone⟩
        rcases List.mem_cons.mp hmem with rfl | hmem2
        · exact absurd hit (by simp [hnone])
        · exact ⟨it2, hmem2, hnone⟩
      rw [ih (pos + it.fixedSize) (ps + it.fixedSize) (if fv = -1 then ps else fv) hrest]

end WalkLemmas

/-- Unpacking a successful `Draw` into its stages. -/
theorem ScrollView.draw_ok_elim {f : ScrollView} {x y width visibleheight : Int} {out : DrawOut}
    (h : f.Draw x y width visibleheight = .ok out) :
    ∃ w2,
      walkItems x y
          (if 0 < width ∧ showVerticalScrollBar f.scrollBarVisibility (contentHeightOf f.items)
              visibleheight = true then width - 1 else width)
          (clampedOffset (contentHeightOf f.items) y visibleheight f.heightOffset)
          (showVerticalScrollBar f.scrollBarVisibility (contentHeightOf f.items) visibleheight)
          f.items y y (-1) = .ok w2 ∧
      out = ⟨clampedOffset (contentHeightOf f.items) y visibleheight f.heightOffset,
        showVerticalScrollBar f.scrollBarVisibility (contentHeightOf f.items) visibleheight,
        (if 0 < width ∧ showVerticalScrollBar f.scrollBarVisibility (contentHeightOf f.items)
            visibleheight = true then width - 1 else width),
        w2.rects, w2.firstVisibleY,
        fillCells x
          (if 0 < width ∧ showVerticalScrollBar f.scrollBarVisibility (contentHeightOf f.items)
              visibleheight = true then width - 1 else width)
          w2.pos (y + visibleheight),
        (if showVerticalScrollBar f.scrollBarVisibility (contentHeightOf f.items) visibleheight
            = true then contentHeightOf f.items - visibleheight else 0),
        (if showVerticalScrollBar f.scrollBarVisibility (contentHeightOf f.items) visibleheight
            = true then
          scrollCursor (contentHeightOf f.items) visibleheight w2.firstVisibleY y else 0)⟩ := by
  simp only [ScrollView.Draw] at h
  cases hw : walkItems x y
      (if 0 < width ∧ showVerticalScrollBar f.scrollBarVisibility (contentHeightOf f.items)
          visibleheight = true then width - 1 else width)
      (clampedOffset (contentHeightOf f.items) y visibleheight f.heightOffset)
      (showVerticalScrollBar f.scrollBarVisibility (contentHeightOf f.items) visibleheight)
      f.items y y (-1) with
  | error e => rw [hw] at h; exact absurd h (by simp [Except.map])
  | ok w2 =>
    rw [hw] at h
    simp only [Except.map, Except.ok.injEq] at h
    exact ⟨w2, rfl, h.symm⟩

/-- C1 as stated is false: `ScrollTo(-3)` followed by `Draw` on three items of
fixed size 10 in a viewport of height 10 leaves the offset at `-3`, whereas
`clamp(-3, 0, max(0, 30 - 10)) = 0`. -/
theorem claim_C1_counterexample :
    (ScrollView.Draw
        (ScrollView.ScrollTo
          ⟨[⟨some 1, 10, false⟩, ⟨some 2, 10, false⟩, ⟨some 3, 10, false⟩],
            ScrollBarVisibility.auto, 0⟩ (-3) 0) 0 0 5 10).map
        (fun o => o.heightOffset) = .ok (-3) ∧
    (-3 : Int) ≠
      max 0 (min (-3)
        (max 0 (contentHeightOf
          [⟨some 1, 10, false⟩, ⟨some 2, 10, false⟩, ⟨some 3, 10, false⟩] - 10))) := by
  constructor
  · decide
  · decide

/-- C1 amended: `ScrollTo(k)` followed by `Draw` leaves the scroll offset at
`min k (contentExtent - viewportExtent)` when the content is taller than the
viewport, and at `k` unchanged otherwise; in particular `Draw` never corrects a
negative offset, and applies no clamp at all when the content fits. -/
theorem claim_C1_amended (f : ScrollView) (k x y width visibleheight : Int) (out : DrawOut)
    (h : (f.ScrollTo k 0).Draw x y width visibleheight = .ok out) :
    out.heightOffset =
      if contentHeightOf f.items > visibleheight
      then min k (contentHeightOf f.items - visibleheight)
      else k := by
  obtain ⟨w2, hw, hout⟩ := ScrollView.draw_ok_elim h
  have hoff : out.heightOffset = clampedOffset (contentHeightOf f.items) y visibleheight k := by
    rw [hout]
    rfl
  rw [hoff]
  unfold clampedOffset
  split_ifs <;> omega

/-- C1 amended, witnessed at `k = -3`, three items of size 10, viewport 10. -/
theorem claim_C1_amended_witness :
    (⟨-3, true, 4, [some (0, 0, 4, 10), some (0, 10, 4, 10), some (0, 20, 4, 10)], 0, [], 20, 0⟩
        : DrawOut).heightOffset =
      if contentHeightOf [⟨some 1, 10, false⟩, ⟨some 2, 10, false⟩, ⟨some 3, 10, false⟩] > 10
      then min (-3)
        (contentHeightOf [⟨some 1, 10, false⟩, ⟨some 2, 10, false⟩, ⟨some 3, 10, false⟩] - 10)
      else (-3) :=
  claim_C1_amended
    ⟨[⟨some 1, 10, false⟩, ⟨some 2, 10, false⟩, ⟨some 3, 10, false⟩],
      ScrollBarVisibility.auto, 0⟩ (-3) 0 0 5 10
    ⟨-3, true, 4, [some (0, 0, 4, 10), some (0, 10, 4, 10), some (0, 20, 4, 10)], 0, [], 20, 0⟩
    (by decide)

/-- C3 as stated is false on two counts: under mode `Always` with one item of
size 10 in a viewport of height 10 (content exactly fits) the scrollbar is
rendered with divisor `contentExtent - viewportExtent = 0`; and under `Always`
with one item of size 20, viewport 10, offset 10, the computed cursor is `-2`,
outside `[0, contentExtent]`. -/
theorem claim_C3_counterexample :
    (ScrollView.Draw ⟨[⟨some 1, 10, false⟩], ScrollBarVisibility.always, 0⟩ 0 0 5 10).map
        (fun o => (o.showBar, o.divisor)) = .ok (true, 0) ∧
    (ScrollView.Draw ⟨[⟨some 1, 20, false⟩], ScrollBarVisibility.always, 10⟩ 0 0 5 10).map
        (fun o => o.cursor) = .ok (-2) ∧
    (-2 : Int) < 0 := by
  refine ⟨by decide, by decide, by decide⟩

/-- C3 amended: under mode `Auto` the division is unreachable when content fits
(whenever the scrollbar is shown the divisor is positive), and the computed
cursor never exceeds `contentExtent` (it is clamped from above only; it can be
negative, and under `Always` the divisor can be zero). -/
theorem claim_C3_amended (f : ScrollView) (x y width visibleheight : Int) (out : DrawOut)
    (h : f.Draw x y width visibleheight = .ok out) :
    (f.scrollBarVisibility = ScrollBarVisibility.auto → out.showBar = true → 0 < out.divisor) ∧
    (out.showBar = true → out.cursor ≤ contentHeightOf f.items) := by
  obtain ⟨w2, hw, hout⟩ := ScrollView.draw_ok_elim h
  have hbar : out.showBar =
      showVerticalScrollBar f.scrollBarVisibility (contentHeightOf f.items) visibleheight := by
    rw [hout]
  constructor
  · intro hauto hshown
    have hshown2 : showVerticalScrollBar f.scrollBarVisibility (contentHeightOf f.items)
        visibleheight = true := by rw [← hbar]; exact hshown
    have hgt : contentHeightOf f.items > visibleheight := by
      have h3 := hshown2
      rw [hauto] at h3
      simpa [showVerticalScrollBar] using h3
    have hdiv : out.divisor = contentHeightOf f.items - visibleheight := by
      rw [hout]
      show (if showVerticalScrollBar f.scrollBarVisibility (contentHeightOf f.items)
          visibleheight = true then contentHeightOf f.items - visibleheight else 0) = _
      rw [if_pos hshown2]
    rw [hdiv]
    omega
  · intro hshown
    have hshown2 : showVerticalScrollBar f.scrollBarVisibility (contentHeightOf f.items)
        visibleheight = true := by rw [← hbar]; exact hshown
    have hcur : out.cursor =
        scrollCursor (contentHeightOf f.items) visibleheight w2.firstVisibleY y := by
      rw [hout]
      show (if showVerticalScrollBar f.scrollBarVisibility (contentHeightOf f.items)
          visibleheight = true then
        scrollCursor (contentHeightOf f.items) visibleheight w2.firstVisibleY y else 0) = _
      rw [if_pos hshown2]
    rw [hcur]
    show (if truncFloat (Rat.divInt (contentHeightOf f.items * (w2.firstVisibleY - y))
          (contentHeightOf f.items - visibleheight)) > contentHeightOf f.items
      then contentHeightOf f.items
      else truncFloat (Rat.divInt (contentHeightOf f.items * (w2.firstVisibleY - y))
          (contentHeightOf f.items - visibleheight))) ≤ contentHeightOf f.items
    split_ifs <;> omega

/-- C3 amended, witnessed under `Auto` with three items of size 10 and
viewport 10, where the divisor is 20 and the cursor is 0. -/
theorem claim_C3_amended_witness :
    (0 : Int) <
      (⟨0, true, 4, [some (0, 0, 4, 10), some (0, 10, 4, 10), some (0, 20, 4, 10)], 0, [], 20, 0⟩
        : DrawOut).divisor ∧
    (⟨0, true, 4, [some (0, 0, 4, 10), some (0, 10, 4, 10), some (0, 20, 4, 10)], 0, [], 20, 0⟩
        : DrawOut).cursor ≤
      contentHeightOf [⟨some 1, 10, false⟩, ⟨some 2, 10, false⟩, ⟨some 3, 10, false⟩] := by
  have h := claim_C3_amended
    ⟨[⟨some 1, 10, false⟩, ⟨some 2, 10, false⟩, ⟨some 3, 10, false⟩],
      ScrollBarVisibility.auto, 0⟩ 0 0 5 10
    ⟨0, true, 4, [some (0, 0, 4, 10), some (0, 10, 4, 10), some (0, 20, 4, 10)], 0, [], 20, 0⟩
    (by decide)
  exact ⟨h.1 rfl rfl, h.2 rfl⟩

/-- C4: the scrollbar decision is recomputed on every `Draw` from the current
mode, content extent and viewport height: shown iff the mode is `Always`, or
the mode is `Auto` and the content extent exceeds the viewport height (so
`Never` never shows it); concretely, 3 items of fixed size 10 under `Auto` show
the scrollbar in a viewport of height 10 and hide it at height 30. -/
theorem claim_C4 :
    (∀ (f : ScrollView) (x y width visibleheight : Int) (out : DrawOut),
      f.Draw x y width visibleheight = .ok out →
      (out.showBar = true ↔
        (f.scrollBarVisibility = ScrollBarVisibility.always ∨
          (f.scrollBarVisibility = ScrollBarVisibility.auto ∧
            contentHeightOf f.items > visibleheight)))) ∧
    (ScrollView.Draw ⟨[⟨some 1, 10, false⟩, ⟨some 2, 10, false⟩, ⟨some 3, 10, false⟩],
        ScrollBarVisibility.auto, 0⟩ 0 0 5 10).map (fun o => o.showBar) = .ok true ∧
    (ScrollView.Draw ⟨[⟨some 1, 10, false⟩, ⟨some 2, 10, false⟩, ⟨some 3, 10, false⟩],
        ScrollBarVisibility.auto, 0⟩ 0 0 5 30).map (fun o => o.showBar) = .ok false := by
  refine ⟨?_, by decide, by decide⟩
  intro f x y width visibleheight out h
  obtain ⟨w2, hw, hout⟩ := ScrollView.draw_ok_elim h
  have hbar : out.showBar =
      showVerticalScrollBar f.scrollBarVisibility (contentHeightOf f.items) visibleheight := by
    rw [hout]
  rw [hbar]
  unfold showVerticalScrollBar
  cases hv : f.scrollBarVisibility <;> simp

/-- C4, witnessed at the `Auto` mode with viewport height 10. -/
theorem claim_C4_witness :
    ((⟨0, true, 4, [some (0, 0, 4, 10), some (0, 10, 4, 10), some (0, 20, 4, 10)], 0, [], 20, 0⟩
        : DrawOut).showBar = true ↔
      (ScrollBarVisibility.auto = ScrollBarVisibility.always ∨
        (ScrollBarVisibility.auto = ScrollBarVisibility.auto ∧
          contentHeightOf [⟨some 1, 10, false⟩, ⟨some 2, 10, false⟩, ⟨some 3, 10, false⟩]
            > 10))) :=
  claim_C4.1
    ⟨[⟨some 1, 10, false⟩, ⟨some 2, 10, false⟩, ⟨some 3, 10, false⟩],
      ScrollBarVisibility.auto, 0⟩ 0 0 5 10
    ⟨0, true, 4, [some (0, 0, 4, 10), some (0, 10, 4, 10), some (0, 20, 4, 10)], 0, [], 20, 0⟩
    (by decide)

/-- C2 as stated is false: with the scrollbar hidden (mode `Never`), offset 15
and three items of size 10, the first item lies entirely above the offset
(`0 + 10 ≤ 15`) yet it is still assigned a rectangle — skipping only happens
when the scrollbar is shown. -/
theorem claim_C2_counterexample :
    (ScrollView.Draw ⟨[⟨some 1, 10, false⟩, ⟨some 2, 10, false⟩, ⟨some 3, 10, false⟩],
        ScrollBarVisibility.never, 15⟩ 0 0 5 10).map
        (fun o => (o.heightOffset, o.rects[0]?)) = .ok (15, some (some (0, 0, 5, 10))) ∧
    sizesBefore [⟨some 1, 10, false⟩, ⟨some 2, 10, false⟩, ⟨some 3, 10, false⟩] 0 + 10 ≤ 15 ∧
    (0 : Int) < 15 := by
  refine ⟨by decide, by decide, by decide⟩

/-- C2 amended: during a `Draw` with scroll offset `s > 0`, when the scrollbar
is shown each item lying entirely above `s` in the accumulated running position
is skipped (assigned no rectangle, hence not drawn), and the first item whose
accumulated position reaches `s` is rendered as the first row at the top of the
viewport; when the scrollbar is not shown, no item is skipped. -/
theorem claim_C2_amended (f : ScrollView) (x y width visibleheight : Int) (out : DrawOut)
    (h : f.Draw x y width visibleheight = .ok out)
    (hpos : ∀ it ∈ f.items, 0 < it.fixedSize)
    (_hs : 0 < out.heightOffset) :
    (out.showBar = true →
      (∀ i (hi : i < f.items.length),
        sizesBefore f.items i + (f.items.get ⟨i, hi⟩).fixedSize ≤ out.heightOffset →
        out.rects[i]? = some none) ∧
      (∀ i (hi : i < f.items.length),
        out.heightOffset ≤ sizesBefore f.items i →
        (∀ j, j < i → sizesBefore f.items j < out.heightOffset) →
        out.rects[i]? =
          some (some (x, y, out.innerWidth, (f.items.get ⟨i, hi⟩).fixedSize)))) ∧
    (out.showBar = false → ∀ i, i < f.items.length → out.rects[i]? ≠ some none) := by
  obtain ⟨w2, hw, hout⟩ := ScrollView.draw_ok_elim h
  have hbar : out.showBar =
      showVerticalScrollBar f.scrollBarVisibility (contentHeightOf f.items) visibleheight := by
    rw [hout]
  have hoff : out.heightOffset =
      clampedOffset (contentHeightOf f.items) y visibleheight f.heightOffset := by
    rw [hout]
  have hrects : out.rects = w2.rects := by rw [hout]
  have hwid : out.innerWidth =
      (if 0 < width ∧ showVerticalScrollBar f.scrollBarVisibility (contentHeightOf f.items)
          visibleheight = true then width - 1 else width) := by
    rw [hout]
  constructor
  · intro hshown
    rw [hbar] at hshown
    rw [hshown] at hw
    constructor
    · intro i hi habove
      have hszpos : 0 < (f.items.get ⟨i, hi⟩).fixedSize :=
        hpos _ (List.get_mem f.items i hi)
      rw [hrects]
      refine walk_skip f.items y y (-1) w2 hw i hi ?_
      rw [hoff] at habove
      omega
    · intro i hi hreach hj
      rw [hrects, hwid, hshown]
      refine walk_first f.items y y (-1) w2 hw i hi ?_ ?_
      · rw [hoff] at hreach
        omega
      · intro j hji
        have := hj j hji
        rw [hoff] at this
        omega
  · intro hhidden
    rw [hbar] at hhidden
    rw [hhidden] at hw
    intro i hi
    rw [hrects]
    exact walk_noskip f.items y y (-1) w2 hw i hi

/-- C2 amended, witnessed at offset 25 (clamped to 20) over three items of
size 10 in a viewport of height 10 under `Auto`: the first item is skipped. -/
theorem claim_C2_amended_witness :
    (⟨20, true, 4, [none, none, some (0, 0, 4, 10)], 20, [], 20, 30⟩
        : DrawOut).rects[0]? = some none :=
  ((claim_C2_amended
      ⟨[⟨some 1, 10, false⟩, ⟨some 2, 10, false⟩, ⟨some 3, 10, false⟩],
        ScrollBarVisibility.auto, 25⟩ 0 0 5 10
      ⟨20, true, 4, [none, none, some (0, 0, 4, 10)], 20, [], 20, 30⟩
      (by decide) (by decide) (by decide)).1 (by decide)).1 0 (by decide) (by decide)

/-- C5: inside the rectangle, wheel-up sets the offset to
`max (heightOffset - 1) 0` (decrement, immediately clamped at 0) and wheel-down
to `heightOffset + 1`, both consumed without forwarding to any child; the upper
clamp is applied by the next `Draw`: once the offset is at or above the ceiling
`contentExtent - viewportExtent`, the offset drawn after a further wheel-down
is still the ceiling. -/
theorem claim_C5 :
    (∀ (f : ScrollView) (child : Nat → Bool × Option Nat),
      f.MouseHandler true MouseAction.scrollUp child =
        ⟨true, none, max (f.heightOffset - 1) 0, []⟩) ∧
    (∀ (f : ScrollView) (child : Nat → Bool × Option Nat),
      f.MouseHandler true MouseAction.scrollDown child =
        ⟨true, none, f.heightOffset + 1, []⟩) ∧
    (∀ (f : ScrollView) (x y width visibleheight : Int) (out : DrawOut)
        (child : Nat → Bool × Option Nat),
      contentHeightOf f.items > visibleheight →
      contentHeightOf f.items - visibleheight ≤ f.heightOffset →
      ScrollView.Draw ⟨f.items, f.scrollBarVisibility,
          (f.MouseHandler true MouseAction.scrollDown child).heightOffset⟩
        x y width visibleheight = .ok out →
      out.heightOffset = contentHeightOf f.items - visibleheight) := by
  refine ⟨?_, ?_, ?_⟩
  · intro f child
    show (⟨true, none, if f.heightOffset - 1 < 0 then 0 else f.heightOffset - 1, []⟩
        : MouseOut) = _
    have : (if f.heightOffset - 1 < 0 then 0 else f.heightOffset - 1)
        = max (f.heightOffset - 1) 0 := by
      split_ifs <;> omega
    rw [this]
  · intro f child
    rfl
  · intro f x y width visibleheight out child hgt hceil hdraw
    obtain ⟨w2, hw, hout⟩ := ScrollView.draw_ok_elim hdraw
    have hoff : out.heightOffset =
        clampedOffset (contentHeightOf f.items) y visibleheight (f.heightOffset + 1) := by
      rw [hout]
      rfl
    rw [hoff]
    unfold clampedOffset
    split_ifs with hc
    · rfl
    · exfalso
      rw [not_and_or] at hc
      rcases hc with hc | hc <;> omega

/-- C5, witnessed at offset 3 for the wheel events and at the ceiling offset 20
(three items of size 10, viewport 10) for the draw-time clamp. -/
theorem claim_C5_witness :
    ScrollView.MouseHandler ⟨[⟨some 1, 10, false⟩], ScrollBarVisibility.auto, 3⟩ true
        MouseAction.scrollUp (fun _ => (false, none)) =
      ⟨true, none, max ((3 : Int) - 1) 0, []⟩ ∧
    ScrollView.MouseHandler ⟨[⟨some 1, 10, false⟩], ScrollBarVisibility.auto, 3⟩ true
        MouseAction.scrollDown (fun _ => (false, none)) = ⟨true, none, (3 : Int) + 1, []⟩ ∧
    (⟨20, true, 4, [none, none, some (0, 0, 4, 10)], 20, [], 20, 30⟩
        : DrawOut).heightOffset =
      contentHeightOf [⟨some 1, 10, false⟩, ⟨some 2, 10, false⟩, ⟨some 3, 10, false⟩] - 10 :=
  ⟨claim_C5.1 ⟨[⟨some 1, 10, false⟩], ScrollBarVisibility.auto, 3⟩ (fun _ => (false, none)),
    claim_C5.2.1 ⟨[⟨some 1, 10, false⟩], ScrollBarVisibility.auto, 3⟩ (fun _ => (false, none)),
    claim_C5.2.2
      ⟨[⟨some 1, 10, false⟩, ⟨some 2, 10, false⟩, ⟨some 3, 10, false⟩],
        ScrollBarVisibility.auto, 20⟩ 0 0 5 10
      ⟨20, true, 4, [none, none, some (0, 0, 4, 10)], 20, [], 20, 30⟩
      (fun _ => (false, none)) (by decide) (by decide) (by decide)⟩

/-- The `Focus` scan returns the primitive of the first entry that is non-nil
and has the focus flag set. -/
theorem focusLoop_eq_find (items : List ScrollItem) :
    focusLoop items =
      (items.find? (fun it => it.item.isSome && it.focus)).bind (fun it => it.item) := by
  induction items with
  | nil => rfl
  | cons it rest ih =>
    cases hsome : it.item.isSome <;> cases hfoc : it.focus <;>
      simp [focusLoop, hsome, hfoc, ih, List.find?_cons]

/-- C7 as stated is false: with a nil first entry carrying the focus flag
followed by a non-nil focus entry, `delegate` is invoked with the second
entry's primitive, not with the first item whose focus flag is true. -/
theorem claim_C7_counterexample :
    ScrollView.Focus ⟨[⟨none, 10, true⟩, ⟨some 2, 10, true⟩],
      ScrollBarVisibility.auto, 0⟩ = some 2 ∧
    (([⟨none, 10, true⟩, ⟨some 2, 10, true⟩] : List ScrollItem).find?
        (fun it => it.focus)).bind (fun it => it.item) = none ∧
    (some 2 : Option Nat) ≠ none := by
  refine ⟨by decide, by decide, by decide⟩

/-- C7 amended: `Focus(delegate)` invokes `delegate` exactly once, with the
primitive of the first non-nil item whose focus flag is true; if there is no
such item, `delegate` is never invoked (and the container keeps nominal focus).
In particular for `[A(focus=false), B(focus=true), C(focus=false)]` the
delegate receives `B`. -/
theorem claim_C7_amended :
    (∀ f : ScrollView,
      f.Focus =
        (f.items.find? (fun it => it.item.isSome && it.focus)).bind (fun it => it.item)) ∧
    ScrollView.Focus ⟨[⟨some 1, 3, false⟩, ⟨some 2, 3, true⟩, ⟨some 3, 3, false⟩],
      ScrollBarVisibility.auto, 0⟩ = some 2 := by
  refine ⟨?_, by decide⟩
  intro f
  exact focusLoop_eq_find f.items

/-- C9 is the documented intent but not what the code does: at the failing
input (one item of height 2, inner rectangle `x=0, y=0, width=4, height=5`,
no scrollbar) the fill loop writes only the cell `(x, i) = (0, i)` on every
inner iteration — cell `(1, 2)` of the leftover region is never written. -/
theorem claim_C9_bug :
    (ScrollView.Draw ⟨[⟨some 1, 2, false⟩], ScrollBarVisibility.never, 0⟩ 0 0 4 5).map
        (fun o => o.fills) =
      .ok [(0, 2), (0, 2), (0, 2), (0, 2), (0, 3), (0, 3), (0, 3), (0, 3),
        (0, 4), (0, 4), (0, 4), (0, 4)] ∧
    ((1, 2) : Int × Int) ∉
      [((0 : Int), (2 : Int)), (0, 2), (0, 2), (0, 2), (0, 3), (0, 3), (0, 3), (0, 3),
        (0, 4), (0, 4), (0, 4), (0, 4)] := by
  refine ⟨by decide, by decide⟩

/-- The back-to-front removal loop, started at index `n`, filters the first `n`
entries and leaves the rest untouched. -/
theorem removeItemLoop_spec (p : Option Nat) :
    ∀ (n : Nat) (items : List ScrollItem), n ≤ items.length →
      removeItemLoop p items n =
        (items.take n).filter (fun it => !decide (it.item = p)) ++ items.drop n := by
  intro n
  induction n with
  | zero =>
    intro items _
    simp [removeItemLoop]
  | succ n ih =>
    intro items hlen
    have hn : n < items.length := by omega
    have hget : items[n]? = some items[n] := List.getElem?_eq_getElem hn
    have htake : (items.take n).length = n := by
      rw [List.length_take]
      omega
    rw [removeItemLoop]
    by_cases hmatch : items[n].item = p
    · rw [if_pos (by simp [hget, hmatch])]
      have hlen2 : n ≤ (removeAt items n).length := by
        have : (removeAt items n).length = (items.take n).length + (items.drop (n + 1)).length :=
          List.length_append _ _
        rw [List.length_drop] at this
        omega
      rw [ih (removeAt items n) hlen2]
      have h1 : (removeAt items n).take n = items.take n := by
        unfold removeAt
        rw [List.take_append_eq_append_take, htake, Nat.sub_self, List.take_zero,
          List.append_nil, List.take_take, Nat.min_self]
      have h2 : (removeAt items n).drop n = items.drop (n + 1) := by
        unfold removeAt
        rw [List.drop_append_eq_append_drop, htake, Nat.sub_self, List.drop_zero,
          List.drop_eq_nil_of_le (by omega : (items.take n).length ≤ n), List.nil_append]
      rw [h1, h2, List.take_succ, hget]
      rw [List.filter_append]
      have h3 : List.filter (fun it => !decide (it.item = p)) (some items[n]).toList = [] := by
        simp [hmatch]
      rw [h3, List.append_nil]
    · rw [if_neg (by simp [hget, hmatch])]
      rw [ih items (by omega)]
      rw [List.take_succ, hget, List.filter_append]
      have h3 : List.filter (fun it => !decide (it.item = p)) (some items[n]).toList
          = [items[n]] := by
        simp [hmatch]
      rw [h3]
      rw [List.drop_eq_getElem_cons hn]
      simp

/-- C8: `RemoveItem(p)` removes every entry whose primitive is identical to
`p` and keeps the remaining entries, in order and unchanged — equivalently the
item list is filtered; in particular both occurrences of a twice-held
primitive are removed. -/
theorem claim_C8 (f : ScrollView) (p : Option Nat) :
    (f.RemoveItem p).items = f.items.filter (fun it => !decide (it.item = p)) ∧
    (ScrollView.RemoveItem ⟨[⟨some 1, 1, false⟩, ⟨some 2, 2, false⟩, ⟨some 1, 3, false⟩,
        ⟨some 4, 4, false⟩], ScrollBarVisibility.auto, 0⟩ (some 1)).items =
      [⟨some 2, 2, false⟩, ⟨some 4, 4, false⟩] := by
  constructor
  · show removeItemLoop p f.items f.items.length = _
    rw [removeItemLoop_spec p f.items.length f.items (le_refl _), List.take_length,
      List.drop_length, List.append_nil]
  · decide

/-- The children whose handlers run are exactly the non-nil children up to and
including the first consumer (all of them when no child consumes). -/
theorem childMouseLoop_invoked (child : Nat → Bool × Option Nat) :
    ∀ (items : List ScrollItem) (c0 : Bool) (cap0 : Option Nat),
      (childMouseLoop child c0 cap0 items).2.2 =
        (items.filterMap (fun it => it.item)).takeWhile (fun q => !(child q).1) ++
        ((items.filterMap (fun it => it.item)).dropWhile (fun q => !(child q).1)).take 1 := by
  intro items
  induction items with
  | nil => intro c0 cap0; simp [childMouseLoop]
  | cons it rest ih =>
    intro c0 cap0
    cases hit : it.item with
    | none =>
      simp only [childMouseLoop, hit, List.filterMap_cons]
      exact ih c0 cap0
    | some q =>
      simp only [childMouseLoop, hit, List.filterMap_cons]
      by_cases hc : (child q).1 = true
      · rw [if_pos hc]
        simp [List.takeWhile_cons, List.dropWhile_cons, hc]
      · have hcf : (child q).1 = false := by
          revert hc
          cases (child q).1 <;> simp
        rw [if_neg hc, hcf]
        simp [List.takeWhile_cons, List.dropWhile_cons, hcf, ih false (child q).2]

/-- When some non-nil child consumes, the result is the first consumer's:
consumed is true and the capture is that child's capture. -/
theorem childMouseLoop_consumer (child : Nat → Bool × Option Nat) :
    ∀ (items : List ScrollItem) (c0 : Bool) (cap0 : Option Nat) (q0 : Nat),
      ((items.filterMap (fun it => it.item)).dropWhile (fun q => !(child q).1)).head?
          = some q0 →
      (childMouseLoop child c0 cap0 items).1 = true ∧
      (childMouseLoop child c0 cap0 items).2.1 = (child q0).2 := by
  intro items
  induction items with
  | nil => intro c0 cap0 q0 h; simp at h
  | cons it rest ih =>
    intro c0 cap0 q0 h
    cases hit : it.item with
    | none =>
      simp only [List.filterMap_cons, hit] at h
      simp only [childMouseLoop, hit]
      exact ih c0 cap0 q0 h
    | some q =>
      simp only [List.filterMap_cons, hit] at h
      by_cases hc : (child q).1 = true
      · rw [List.dropWhile_cons] at h
        rw [hc] at h
        simp only [Bool.not_true, if_neg (by simp : ¬(false = true)), List.head?_cons,
          Option.some.injEq] at h
        subst h
        simp only [childMouseLoop, hit]
        rw [if_pos hc]
        exact ⟨hc, rfl⟩
      · have hcf : (child q).1 = false := by
          revert hc
          cases (child q).1 <;> simp
        rw [List.dropWhile_cons] at h
        rw [hcf] at h
        simp only [Bool.not_false, if_pos rfl] at h
        simp only [childMouseLoop, hit]
        rw [if_neg hc]
        exact ih (child q).1 (child q).2 q0 h

/-- When no non-nil child consumes, the loop reports not-consumed (its running
consumed flag starts false and is overwritten only by `false` results). -/
theorem childMouseLoop_noconsumer (child : Nat → Bool × Option Nat) :
    ∀ (items : List ScrollItem) (cap0 : Option Nat),
      (items.filterMap (fun it => it.item)).dropWhile (fun q => !(child q).1) = [] →
      (childMouseLoop child false cap0 items).1 = false := by
  intro items
  induction items with
  | nil => intro cap0 _; rfl
  | cons it rest ih =>
    intro cap0 h
    cases hit : it.item with
    | none =>
      simp only [List.filterMap_cons, hit] at h
      simp only [childMouseLoop, hit]
      exact ih cap0 h
    | some q =>
      simp only [List.filterMap_cons, hit] at h
      by_cases hc : (child q).1 = true
      · rw [List.dropWhile_cons, hc] at h
        simp at h
      · have hcf : (child q).1 = false := by
          revert hc
          cases (child q).1 <;> simp
        rw [List.dropWhile_cons, hcf] at h
        simp only [Bool.not_false, if_pos rfl] at h
        simp only [childMouseLoop, hit]
        rw [if_neg hc, hcf]
        exact ih (child q).2 h

/-- C6: for an in-rectangle mouse event the ScrollView does not itself consume,
the non-nil children are offered the event in order; the handlers invoked are
exactly those up to and including the first consumer, whose `(consumed,
capture)` result is returned; when no child consumes, consumed is false and
every non-nil child was offered the event. -/
theorem claim_C6 (f : ScrollView) (child : Nat → Bool × Option Nat) :
    (f.MouseHandler true MouseAction.other child).invoked =
      (f.items.filterMap (fun it => it.item)).takeWhile (fun q => !(child q).1) ++
      ((f.items.filterMap (fun it => it.item)).dropWhile (fun q => !(child q).1)).take 1 ∧
    (∀ q0,
      ((f.items.filterMap (fun it => it.item)).dropWhile (fun q => !(child q).1)).head?
          = some q0 →
      (f.MouseHandler true MouseAction.other child).consumed = true ∧
      (f.MouseHandler true MouseAction.other child).capture = (child q0).2) ∧
    ((f.items.filterMap (fun it => it.item)).dropWhile (fun q => !(child q).1) = [] →
      (f.MouseHandler true MouseAction.other child).consumed = false) := by
  refine ⟨?_, ?_, ?_⟩
  · show (childMouseLoop child false none f.items).2.2 = _
    exact childMouseLoop_invoked child f.items false none
  · intro q0 h
    exact childMouseLoop_consumer child f.items false none q0 h
  · intro h
    show (childMouseLoop child false none f.items).1 = false
    exact childMouseLoop_noconsumer child f.items none h

/-- C6, witnessed with children 1, 2, 3 where child 2 consumes with capture
102: children 1 and 2 run, 3 does not, and the result is child 2's. -/
theorem claim_C6_witness :
    (ScrollView.MouseHandler
        ⟨[⟨some 1, 10, false⟩, ⟨some 2, 10, false⟩, ⟨some 3, 10, false⟩],
          ScrollBarVisibility.auto, 7⟩ true MouseAction.other
        (fun q => (decide (q = 2), some (q + 100)))).invoked = [1, 2] ∧
    (ScrollView.MouseHandler
        ⟨[⟨some 1, 10, false⟩, ⟨some 2, 10, false⟩, ⟨some 3, 10, false⟩],
          ScrollBarVisibility.auto, 7⟩ true MouseAction.other
        (fun q => (decide (q = 2), some (q + 100)))).consumed = true ∧
    (ScrollView.MouseHandler
        ⟨[⟨some 1, 10, false⟩, ⟨some 2, 10, false⟩, ⟨some 3, 10, false⟩],
          ScrollBarVisibility.auto, 7⟩ true MouseAction.other
        (fun q => (decide (q = 2), some (q + 100)))).capture = some 102 := by
  have h := claim_C6
    ⟨[⟨some 1, 10, false⟩, ⟨some 2, 10, false⟩, ⟨some 3, 10, false⟩],
      ScrollBarVisibility.auto, 7⟩ (fun q => (decide (q = 2), some (q + 100)))
  refine ⟨h.1.trans (by decide), (h.2.1 2 (by decide)).1, (h.2.1 2 (by decide)).2⟩

/-- C10: `AddItemAtIndex` stores its primitive exactly as passed — a nil
primitive is kept nil (unlike `AddItem`, which replaces nil by a fresh
invisible Box), `GetItems` then returns nil at that index, and a `Draw` whose
walk reaches a nil item (here: scrollbar hidden, so nothing is skipped) calls
`SetRect` on it without a nil guard and panics. -/
theorem claim_C10 (f : ScrollView) (index : Nat) (fixedSize : Int) (focus : Bool)
    (freshBox : Nat) (hidx : index ≤ f.items.length) :
    ((f.AddItemAtIndex index none fixedSize focus).GetItems)[index]? = some none ∧
    (f.AddItem freshBox none fixedSize focus).GetItems = f.GetItems ++ [some freshBox] ∧
    (∀ (g : ScrollView) (x y width visibleheight : Int),
      g.scrollBarVisibility = ScrollBarVisibility.never →
      (∃ it ∈ g.items, it.item = none) →
      g.Draw x y width visibleheight = .error ()) := by
  refine ⟨?_, ?_, ?_⟩
  · show ((if index = 0 then (⟨none, fixedSize, focus⟩ : ScrollItem) :: f.items
        else f.items.take index ++ ⟨none, fixedSize, focus⟩ :: f.items.drop index).map
        (fun it => it.item))[index]? = some none
    by_cases h0 : index = 0
    · subst h0
      rw [if_pos rfl]
      simp
    · rw [if_neg h0]
      rw [List.map_append]
      have hlenmap : (List.map (fun it => it.item) (f.items.take index)).length = index := by
        rw [List.length_map, List.length_take]
        omega
      rw [List.getElem?_append_right (le_of_eq hlenmap)]
      rw [hlenmap, Nat.sub_self]
      simp
  · show (f.items ++ [(⟨some freshBox, fixedSize, focus⟩ : ScrollItem)]).map
        (fun it => it.item) = f.GetItems ++ [some freshBox]
    simp [ScrollView.GetItems]
  · intro g x y width visibleheight hvis hnone
    have hsb : showVerticalScrollBar g.scrollBarVisibility (contentHeightOf g.items)
        visibleheight = false := by
      rw [hvis]
      simp [showVerticalScrollBar]
    show (walkItems x y
        (if 0 < width ∧ showVerticalScrollBar g.scrollBarVisibility (contentHeightOf g.items)
            visibleheight = true then width - 1 else width)
        (clampedOffset (contentHeightOf g.items) y visibleheight g.heightOffset)
        (showVerticalScrollBar g.scrollBarVisibility (contentHeightOf g.items) visibleheight)
        g.items y y (-1)).map _ = Except.error ()
    rw [hsb]
    rw [walk_error_of_none g.items y y (-1) hnone]
    rfl

/-- C10, witnessed by inserting nil at index 1 and drawing a one-item
container holding a nil item. -/
theorem claim_C10_witness :
    ((ScrollView.AddItemAtIndex ⟨[⟨some 5, 1, false⟩], ScrollBarVisibility.auto, 0⟩
        1 none 7 false).GetItems)[1]? = some none ∧
    (ScrollView.AddItem ⟨[⟨some 5, 1, false⟩], ScrollBarVisibility.auto, 0⟩
        9 none 7 false).GetItems =
      (⟨[⟨some 5, 1, false⟩], ScrollBarVisibility.auto, 0⟩ : ScrollView).GetItems
        ++ [some 9] ∧
    ScrollView.Draw ⟨[⟨none, 1, false⟩], ScrollBarVisibility.never, 0⟩ 0 0 3 3
      = .error () := by
  have h := claim_C10 ⟨[⟨some 5, 1, false⟩], ScrollBarVisibility.auto, 0⟩ 1 7 false 9
    (by decide)
  exact ⟨h.1, h.2.1, h.2.2 ⟨[⟨none, 1, false⟩], ScrollBarVisibility.never, 0⟩ 0 0 3 3
    rfl (by decide)⟩

end CviewScroll
